import Mathlib

/-!
Shallow embedding of `src/components/salsa-macros/src/db_view.rs` (the
`#[salsa::db_view]` attribute macro) together with the name-derivation helper
`heck::ToSnakeCase` that it uses.  Identifiers are modelled as ASCII strings
(Rust identifiers restricted to ASCII letters, digits and underscore);
`char::is_alphanumeric`, `char::to_lowercase` agree with Lean's
`Char.isAlphanum`, `Char.toLower` on this fragment.
-/

namespace Salsa

/-! ### `heck::ToSnakeCase`

`heck`'s `transform` splits the input on non-alphanumeric characters, then
splits each resulting word at case boundaries (lowercase→uppercase, and
uppercase-run followed by lowercase), lowercases every piece and joins all
pieces with `_`. -/

/-- The word modes of `heck`'s `transform` loop. -/
inductive WordMode where
  | boundary
  | lowercase
  | uppercase
deriving DecidableEq, Repr

/-- Prepend a character to the first word of a split (used by `splitSep`). -/
def consHead (c : Char) : List (List Char) → List (List Char)
  | [] => [[c]]
  | w :: ws => (c :: w) :: ws

/-- Rust `str::split(|c| !c.is_alphanumeric())`: the (possibly empty) maximal
runs of alphanumeric characters, separators dropped. -/
def splitSep : List Char → List (List Char)
  | [] => [[]]
  | c :: rest =>
    if c.isAlphanum then consHead c (splitSep rest)
    else [] :: splitSep rest

/-- The scanning loop of `heck`'s `transform` on one word: `mode` is the mode
of the previous cased character, `acc` the current piece (`word[init..i]`).
A boundary is cut after a lowercase character followed by an uppercase one,
and before the last character of an uppercase run that is followed by a
lowercase character. -/
def splitWordAux (mode : WordMode) (acc : List Char) : List Char → List (List Char)
  | [] => [acc]
  | [c] => [acc ++ [c]]
  | c :: next :: rest =>
    let nextMode : WordMode :=
      if c.isLower then .lowercase
      else if c.isUpper then .uppercase
      else mode
    if nextMode = .lowercase ∧ next.isUpper then
      (acc ++ [c]) :: splitWordAux .boundary [] (next :: rest)
    else if mode = .uppercase ∧ c.isUpper ∧ next.isLower then
      acc :: splitWordAux .boundary [c] (next :: rest)
    else
      splitWordAux nextMode (acc ++ [c]) (next :: rest)

/-- Split one word into its case-boundary pieces (an empty word yields no
pieces, matching `heck` emitting nothing for it). -/
def splitWord : List Char → List (List Char)
  | [] => []
  | c :: rest => splitWordAux .boundary [] (c :: rest)

/-- Join pieces with a single `_` boundary between consecutive pieces. -/
def joinUnderscore : List (List Char) → List Char
  | [] => []
  | [p] => p
  | p :: q :: ps => p ++ '_' :: joinUnderscore (q :: ps)

/-- All pieces of all words of `l`, in order. -/
def snakePieces (l : List Char) : List (List Char) :=
  (splitSep l).flatMap splitWord

/-- `heck::ToSnakeCase` on a character list. -/
def snakeChars (l : List Char) : List Char :=
  joinUnderscore ((snakePieces l).map (List.map Char.toLower))

/-- `heck::ToSnakeCase::to_snake_case`. -/
def toSnakeCase (s : String) : String :=
  String.mk (snakeChars s.data)

/-! ### Data model of the macro input and output -/

/-- Visibility of an item (`syn::Visibility`). -/
inductive Visibility where
  | pub
  | inherited
  | restricted (path : String)
deriving DecidableEq, Repr

/-- One item of a trait body.  The user's method signatures are opaque to the
macro (`userItem`); the generated hidden trait contains a single method
`fn name(&self);`. -/
inductive TraitItem where
  | method (name : String)
  | userItem (text : String)
deriving DecidableEq, Repr

/-- `syn::ItemTrait`, with the fields the macro can observe or move:
attributes, visibility, name, generics (opaque text), supertraits (each as
path text) and the body items. -/
structure ItemTrait where
  attrs : List String
  vis : Visibility
  ident : String
  generics : String
  supertraits : List String
  items : List TraitItem
deriving DecidableEq, Repr

/-- Modelled from the spec: `hygiene.rs` is not under `src/`.  Per §4.2 a
`Hygiene` context is a per-expansion provider mapping each symbolic local
name to a fresh identifier, memoized so that the same symbolic name resolves
to the same identifier within one expansion; we model it as the resulting
function from symbolic name to identifier. -/
structure Hygiene where
  ident : String → String

/-- The generated blanket implementation
`impl<DB: Database> DbViewTrait for DB { fn db_view_method(&self) { ... } }`,
recorded by the identifiers it mentions: the hygienic generic parameter,
`Database` alias and `views` local, the hidden trait and method names, and
the user trait registered into the views registry. -/
structure ViewImpl where
  DB : String
  DatabaseAlias : String
  views : String
  traitName : String
  methodName : String
  userTrait : String
deriving DecidableEq, Repr

/-- One declaration of the macro's output fragment. -/
inductive Decl where
  | traitDecl (t : ItemTrait)
  | implDecl (i : ViewImpl)
deriving DecidableEq, Repr

/-- The two diagnostics the macro can emit: `parse_macro_input!(args as
Nothing)` failing on non-empty arguments (ArgumentError), and
`parse_macro_input!(input as ItemTrait)` failing on a non-trait item
(SyntaxError). -/
inductive Diagnostic where
  | argumentError
  | parseError
deriving DecidableEq, Repr

/-- A `proc_macro::TokenStream` returned by the macro: either a list of
declarations or a single `compile_error!` diagnostic. -/
inductive MacroOutput where
  | decls (ds : List Decl)
  | diag (d : Diagnostic)
deriving DecidableEq, Repr

/-- The raw input item the attribute is placed on: either something that
parses as `syn::ItemTrait`, or any other item (`other`), on which
`parse_macro_input!` fails. -/
inductive MacroInput where
  | traitItem (t : ItemTrait)
  | other (text : String)
deriving DecidableEq, Repr

/-! ### `DbViewMacro` -/

/-- The `DbViewMacro` struct of `db_view.rs`. -/
structure DbViewMacro where
  hygiene : Hygiene
  input : ItemTrait
  DbViewTrait : String
  db_view_method : String

namespace DbViewMacro

/-- `DbViewMacro::db_view_trait_name`:
`format!("__SalsaAddView{}__", input)`. -/
def db_view_trait_name (input : String) : String :=
  "__SalsaAddView" ++ input ++ "__"

/-- `DbViewMacro::db_view_method_name`:
`format!("__salsa_add_view_{}__", input.to_string().to_snake_case())`. -/
def db_view_method_name (input : String) : String :=
  "__salsa_add_view_" ++ toSnakeCase input ++ "__"

/-- `DbViewMacro::new`. -/
def new (hygiene : Hygiene) (input : ItemTrait) : DbViewMacro :=
  { DbViewTrait := db_view_trait_name input.ident
    db_view_method := db_view_method_name input.ident
    hygiene := hygiene
    input := input }

/-- `DbViewMacro::add_supertrait`: pushes `DbViewTrait` onto the input's
supertrait list. -/
def add_supertrait (m : DbViewMacro) : DbViewMacro :=
  { m with input := { m.input with supertraits := m.input.supertraits ++ [m.DbViewTrait] } }

/-- `DbViewMacro::view_trait`: the hidden trait
`#[doc(hidden)] #vis trait #DbViewTrait { fn #db_view_method(&self); }`
(its doc comment is elided as an attribute string). -/
def view_trait (m : DbViewMacro) : ItemTrait :=
  { attrs := ["doc(hidden)"]
    vis := m.input.vis
    ident := m.DbViewTrait
    generics := ""
    supertraits := []
    items := [TraitItem.method m.db_view_method] }

/-- `DbViewMacro::view_impl`: the blanket implementation registering
`dyn #UserTrait` in the views registry, with hygienic locals. -/
def view_impl (m : DbViewMacro) : ViewImpl :=
  { DB := m.hygiene.ident "DB"
    DatabaseAlias := m.hygiene.ident "Database"
    views := m.hygiene.ident "views"
    traitName := m.DbViewTrait
    methodName := m.db_view_method
    userTrait := m.input.ident }

/-- `DbViewMacro::expand`: mutate the input, build the two artifacts, and
emit `[input, view_trait, view_impl]`.  The Rust function returns
`syn::Result` but never errs. -/
def expand (m : DbViewMacro) : Except Diagnostic (List Decl) :=
  let m := m.add_supertrait
  let vimpl := m.view_impl
  let vtrait := m.view_trait
  let input := m.input
  Except.ok [Decl.traitDecl input, Decl.traitDecl vtrait, Decl.implDecl vimpl]

end DbViewMacro

/-- The `db_view` entry point: parse the arguments as `syn::parse::Nothing`
(fails on any token, yielding the argument diagnostic), parse the input as
`syn::ItemTrait` (fails on anything else, yielding the parse diagnostic),
then expand.  Arguments are modelled as their token list. -/
def db_view (hygiene : Hygiene) (args : List String) (input : MacroInput) : MacroOutput :=
  if args = [] then
    match input with
    | .traitItem t =>
        match (DbViewMacro.new hygiene t).expand with
        | .ok ds => .decls ds
        | .error e => .diag e
    | .other _ => .diag .parseError
  else
    .diag .argumentError

/-! ### Valid identifiers (ASCII model) -/

/-- A character allowed in an (ASCII) Rust identifier. -/
def isIdentChar (c : Char) : Bool :=
  c.isAlphanum || c = '_'

/-- A character allowed to start an (ASCII) Rust identifier. -/
def isIdentStart (c : Char) : Bool :=
  c.isAlpha || c = '_'

/-- A valid (ASCII) Rust identifier: non-empty, made of letters, digits and
underscores, not starting with a digit, and not a lone underscore. -/
def isValidIdent (s : String) : Prop :=
  s.data ≠ [] ∧ (∀ c ∈ s.data, isIdentChar c = true) ∧
    (∀ c ∈ s.data.head?, isIdentStart c = true) ∧ s ≠ "_"

instance (s : String) : Decidable (isValidIdent s) := by
  unfold isValidIdent; infer_instance

/-! ### Sample inputs for concrete instances -/

/-- A sample hygiene context (salsa's `Hygiene::ident` appends underscores
until the identifier is fresh; `text_` is its default). -/
def hygiene0 : Hygiene := ⟨fun s => s ++ "_"⟩

/-- A sample input trait: `pub trait UserTrait: OtherTrait { ... }`. -/
def sampleTrait : ItemTrait :=
  { attrs := []
    vis := .pub
    ident := "UserTrait"
    generics := ""
    supertraits := ["OtherTrait"]
    items := [.userItem "fn method_a(&self);"] }

/-- `sampleTrait` with `inherited` (private) visibility instead of `pub`. -/
def sampleTraitPriv : ItemTrait := { sampleTrait with vis := .inherited }

/-- `sampleTrait` with different attributes, generics and body. -/
def sampleTraitAltBody : ItemTrait :=
  { sampleTrait with attrs := ["cfg(test)"], generics := "<T>", items := [] }

/-! ### Lemmas about the snake-case transform

The key invariant: the alphanumeric characters of `snakeChars l` are exactly
the alphanumeric characters of `l`, lowercased, in order.  The transform only
drops separator characters and inserts fresh underscores. -/

theorem isAlphanum_toLower {c : Char} (h : c.isAlphanum = true) :
    c.toLower.isAlphanum = true := by
  simp only [Char.toLower]
  split
  · next hc =>
      obtain ⟨h1, h2⟩ := hc
      generalize Char.toNat c = n at h1 h2
      interval_cases n <;> decide
  · exact h

theorem consHead_flatten (c : Char) (L : List (List Char)) :
    (consHead c L).flatten = c :: L.flatten := by
  cases L <;> simp [consHead]

theorem splitSep_flatten (l : List Char) :
    (splitSep l).flatten = l.filter Char.isAlphanum := by
  induction l with
  | nil => rfl
  | cons c rest ih =>
      simp only [splitSep]
      by_cases hc : c.isAlphanum
      · rw [if_pos hc, consHead_flatten, ih, List.filter_cons, if_pos hc]
      · rw [if_neg hc]
        simp [List.filter_cons, hc, ih]

theorem splitWordAux_flatten :
    ∀ (l : List Char) (mode : WordMode) (acc : List Char),
      (splitWordAux mode acc l).flatten = acc ++ l
  | [], _, _ => by simp [splitWordAux]
  | [c], _, acc => by simp [splitWordAux]
  | c :: next :: rest, mode, acc => by
      simp only [splitWordAux]
      repeat' split
      all_goals simp [splitWordAux_flatten (next :: rest)]

theorem splitWord_flatten (w : List Char) : (splitWord w).flatten = w := by
  cases w with
  | nil => rfl
  | cons c rest => simp [splitWord, splitWordAux_flatten]

theorem snakePieces_flatten (l : List Char) :
    (snakePieces l).flatten = l.filter Char.isAlphanum := by
  unfold snakePieces
  rw [← splitSep_flatten l]
  generalize splitSep l = L
  induction L with
  | nil => rfl
  | cons w L ih => simp [List.flatMap_cons, splitWord_flatten, ih]

theorem mem_snakePieces_alnum {l p : List Char} (hp : p ∈ snakePieces l)
    {c : Char} (hc : c ∈ p) : c.isAlphanum = true := by
  have hmem : c ∈ (snakePieces l).flatten := List.mem_flatten_of_mem hp hc
  rw [snakePieces_flatten] at hmem
  exact (List.mem_filter.mp hmem).2

theorem joinUnderscore_filter :
    ∀ ps : List (List Char),
      (joinUnderscore ps).filter Char.isAlphanum
        = ((ps.map fun p => p.filter Char.isAlphanum)).flatten
  | [] => rfl
  | [p] => by simp [joinUnderscore]
  | p :: q :: ps => by
      have h : ('_' : Char).isAlphanum = false := by decide
      simp [joinUnderscore, List.filter_append, List.filter_cons, h,
        joinUnderscore_filter (q :: ps)]

theorem filter_snakeChars (l : List Char) :
    (snakeChars l).filter Char.isAlphanum
      = (l.filter Char.isAlphanum).map Char.toLower := by
  unfold snakeChars
  rw [joinUnderscore_filter]
  have h1 : ((snakePieces l).map (List.map Char.toLower)).map
        (fun p => p.filter Char.isAlphanum)
      = (snakePieces l).map (List.map Char.toLower) := by
    have := List.map_congr_left (l := (snakePieces l).map (List.map Char.toLower))
      (f := fun p => p.filter Char.isAlphanum) (g := id) ?_
    · simpa using this
    · intro p hp
      obtain ⟨q, hq, rfl⟩ := List.mem_map.mp hp
      simp only [id]
      apply List.filter_eq_self.mpr
      intro c hc
      obtain ⟨d, hd, rfl⟩ := List.mem_map.mp hc
      exact isAlphanum_toLower (mem_snakePieces_alnum hq hd)
  rw [h1, ← List.map_flatten, snakePieces_flatten]

theorem length_filter_snakeChars (l : List Char) :
    ((snakeChars l).filter Char.isAlphanum).length
      = (l.filter Char.isAlphanum).length := by
  rw [filter_snakeChars, List.length_map]

/-! ### Lemmas about the derived names -/

theorem trait_name_ne_method_name (N M : String) :
    DbViewMacro.db_view_trait_name N ≠ DbViewMacro.db_view_method_name M := by
  intro h
  have hd := congrArg String.data h
  have e1 : ("__SalsaAddView" : String).data
      = '_' :: '_' :: 'S' :: ['a', 'l', 's', 'a', 'A', 'd', 'd', 'V', 'i', 'e', 'w'] := rfl
  have e2 : ("__salsa_add_view_" : String).data
      = '_' :: '_' :: 's' ::
          ['a', 'l', 's', 'a', '_', 'a', 'd', 'd', '_', 'v', 'i', 'e', 'w', '_'] := rfl
  simp only [DbViewMacro.db_view_trait_name, DbViewMacro.db_view_method_name,
    String.data_append, e1, e2, List.cons_append] at hd
  injection hd with h1 hd
  injection hd with h2 hd
  injection hd with h3 hd
  exact absurd h3 (by decide)

theorem db_view_trait_name_inj {N M : String}
    (h : DbViewMacro.db_view_trait_name N = DbViewMacro.db_view_trait_name M) :
    N = M := by
  have hd := congrArg String.data h
  simp only [DbViewMacro.db_view_trait_name, String.data_append] at hd
  exact String.ext (List.append_cancel_left (List.append_cancel_right hd))

theorem db_view_method_name_eq_iff (N M : String) :
    DbViewMacro.db_view_method_name N = DbViewMacro.db_view_method_name M
      ↔ toSnakeCase N = toSnakeCase M := by
  constructor
  · intro h
    have hd := congrArg String.data h
    simp only [DbViewMacro.db_view_method_name, String.data_append] at hd
    exact String.ext (List.append_cancel_left (List.append_cancel_right hd))
  · intro h
    simp [DbViewMacro.db_view_method_name, h]

/-! ### The claims -/

/-- C1: for every interface declaration, the augmented declaration in the
expansion's output has requirements equal to the original requirements with
`db_view_trait_name` of the declaration's name appended as a single new last
entry, all pre-existing entries kept in their original order. -/
theorem C1_requirements_append (hy : Hygiene) (t : ItemTrait) :
    ∃ hidden vimpl,
      (DbViewMacro.new hy t).expand
        = Except.ok
            [Decl.traitDecl
               { t with supertraits :=
                  t.supertraits ++ [DbViewMacro.db_view_trait_name t.ident] },
             hidden, vimpl] :=
  ⟨_, _, rfl⟩

/-- C2: for every input, the output of the expansion is either exactly three
declarations in the order [mutated interface declaration, hidden interface,
blanket implementation], or exactly one diagnostic; never a mixture. -/
theorem C2_output_shape (hy : Hygiene) (args : List String) (input : MacroInput) :
    (∃ aug hidden vimpl,
        db_view hy args input
          = .decls [Decl.traitDecl aug, Decl.traitDecl hidden, Decl.implDecl vimpl]) ∨
    (∃ d, db_view hy args input = .diag d) := by
  unfold db_view
  by_cases h : args = []
  · rw [if_pos h]
    cases input with
    | traitItem t => exact Or.inl ⟨_, _, _, rfl⟩
    | other s => exact Or.inr ⟨_, rfl⟩
  · rw [if_neg h]
    exact Or.inr ⟨_, rfl⟩

/-- C3: for every input interface with name `N`, the generated hidden
interface in the output has exactly one method, named
`db_view_method_name N`, and its visibility equals the visibility of the
original input declaration. -/
theorem C3_hidden_interface_shape (hy : Hygiene) (t : ItemTrait) :
    ∃ aug hidden vimpl,
      (DbViewMacro.new hy t).expand
          = Except.ok [Decl.traitDecl aug, Decl.traitDecl hidden, Decl.implDecl vimpl] ∧
        hidden.items = [TraitItem.method (DbViewMacro.db_view_method_name t.ident)] ∧
        hidden.vis = t.vis :=
  ⟨_, _, _, rfl, rfl, rfl⟩

/-- C4 (counterexample): the spec's scenario expects the derived names
`__MarkerAddViewUserTrait__` and `__marker_add_view_user_trait__` for input
`UserTrait`; the code derives `__SalsaAddView...__`/`__salsa_add_view_...__`
instead. -/
theorem C4_marker_names_counterexample :
    ¬ (DbViewMacro.db_view_trait_name "UserTrait" = "__MarkerAddViewUserTrait__" ∧
       DbViewMacro.db_view_method_name "UserTrait" = "__marker_add_view_user_trait__") := by
  decide

/-- C4 (amended): for the public interface `UserTrait` the derived hidden
interface name is `__SalsaAddViewUserTrait__` and the derived hidden method
name is `__salsa_add_view_user_trait__`, with snake_case segmentation mapping
`UserTrait` to `user_trait`. -/
theorem C4_derived_names_for_UserTrait :
    DbViewMacro.db_view_trait_name "UserTrait" = "__SalsaAddViewUserTrait__" ∧
    DbViewMacro.db_view_method_name "UserTrait" = "__salsa_add_view_user_trait__" ∧
    toSnakeCase "UserTrait" = "user_trait" := by
  refine ⟨by decide, by decide, by decide⟩

/-- C5: for every valid identifier `N`, `db_view_trait_name N` differs from
`N`, `db_view_method_name N` differs from `N`, and the two derived names
differ from each other. -/
theorem C5_derived_names_fresh (N : String) (_hvalid : isValidIdent N) :
    DbViewMacro.db_view_trait_name N ≠ N ∧
    DbViewMacro.db_view_method_name N ≠ N ∧
    DbViewMacro.db_view_trait_name N ≠ DbViewMacro.db_view_method_name N := by
  refine ⟨?_, ?_, trait_name_ne_method_name N N⟩
  · intro he
    have hl := congrArg String.length he
    have e1 : ("__SalsaAddView" : String).length = 14 := rfl
    have e2 : ("__" : String).length = 2 := rfl
    simp only [DbViewMacro.db_view_trait_name, String.length_append, e1, e2] at hl
    omega
  · intro he
    have hl := congrArg (fun s => ((String.data s).filter Char.isAlphanum).length) he
    simp only [DbViewMacro.db_view_method_name, String.data_append, List.filter_append,
      List.length_append] at hl
    have e1 : (("__salsa_add_view_" : String).data.filter Char.isAlphanum).length = 12 := by
      decide
    have e2 : (("__" : String).data.filter Char.isAlphanum).length = 0 := by decide
    have e3 : (toSnakeCase N).data = snakeChars N.data := rfl
    rw [e1, e2, e3, length_filter_snakeChars] at hl
    omega

/-- C5 witness at `N = "UserTrait"`. -/
theorem C5_derived_names_fresh_witness :
    isValidIdent "UserTrait" ∧
      (DbViewMacro.db_view_trait_name "UserTrait" ≠ "UserTrait" ∧
       DbViewMacro.db_view_method_name "UserTrait" ≠ "UserTrait" ∧
       DbViewMacro.db_view_trait_name "UserTrait"
         ≠ DbViewMacro.db_view_method_name "UserTrait") :=
  ⟨by decide, C5_derived_names_fresh "UserTrait" (by decide)⟩

/-- C6 (counterexample): the claim that derived names from distinct
identifiers never collide is refuted by `FooBar` and `foo_bar`: both are valid
identifiers with the same snake_case form, so they derive the same hidden
method name. -/
theorem C6_method_name_collision :
    "FooBar" ≠ "foo_bar" ∧ isValidIdent "FooBar" ∧ isValidIdent "foo_bar" ∧
    DbViewMacro.db_view_method_name "FooBar"
      = DbViewMacro.db_view_method_name "foo_bar" := by
  refine ⟨by decide, by decide, by decide, by decide⟩

/-- C6 (amended): for distinct identifiers `N` and `M`, the hidden interface
names are distinct, and a hidden interface name never coincides with a hidden
method name; the hidden method names coincide exactly when `N` and `M` have
the same snake_case form (so they are distinct whenever the snake_case forms
differ, but not in general). -/
theorem C6_cross_distinctness (N M : String) (h : N ≠ M) :
    DbViewMacro.db_view_trait_name N ≠ DbViewMacro.db_view_trait_name M ∧
    DbViewMacro.db_view_trait_name N ≠ DbViewMacro.db_view_method_name M ∧
    DbViewMacro.db_view_method_name N ≠ DbViewMacro.db_view_trait_name M ∧
    (DbViewMacro.db_view_method_name N = DbViewMacro.db_view_method_name M
      ↔ toSnakeCase N = toSnakeCase M) :=
  ⟨fun he => h (db_view_trait_name_inj he),
   trait_name_ne_method_name N M,
   fun he => trait_name_ne_method_name M N he.symm,
   db_view_method_name_eq_iff N M⟩

/-- C6 witness at `N = "Alpha"`, `M = "Beta"`. -/
theorem C6_cross_distinctness_witness :
    ("Alpha" : String) ≠ "Beta" ∧
      (DbViewMacro.db_view_trait_name "Alpha" ≠ DbViewMacro.db_view_trait_name "Beta" ∧
       DbViewMacro.db_view_trait_name "Alpha" ≠ DbViewMacro.db_view_method_name "Beta" ∧
       DbViewMacro.db_view_method_name "Alpha" ≠ DbViewMacro.db_view_trait_name "Beta" ∧
       (DbViewMacro.db_view_method_name "Alpha" = DbViewMacro.db_view_method_name "Beta"
         ↔ toSnakeCase "Alpha" = toSnakeCase "Beta")) :=
  ⟨by decide, C6_cross_distinctness "Alpha" "Beta" (by decide)⟩

/-- C7: the expansion yields the argument diagnostic iff non-empty argument
tokens were supplied; given empty arguments it yields the parse diagnostic iff
the input does not parse as an interface declaration; in either failure case
the output is exactly one diagnostic and no declarations, and otherwise the
expansion succeeds with declarations. -/
theorem C7_diagnostics (hy : Hygiene) (args : List String) (input : MacroInput) :
    (db_view hy args input = .diag .argumentError ↔ args ≠ []) ∧
    (args = [] →
      (db_view hy args input = .diag .parseError ↔ ∀ t, input ≠ .traitItem t)) ∧
    (args = [] → ∀ t, input = .traitItem t →
      ∃ ds, db_view hy args input = .decls ds) := by
  by_cases h : args = []
  · subst h
    unfold db_view
    cases input with
    | traitItem t =>
        refine ⟨by simp [DbViewMacro.expand], fun _ => ?_, fun _ t' ht' => ⟨_, rfl⟩⟩
        simp only [if_pos rfl]
        constructor
        · intro he
          cases he
        · intro hall
          exact absurd rfl (hall t)
    | other s =>
        refine ⟨by simp, fun _ => ?_, fun _ t' ht' => by cases ht'⟩
        simp only [if_pos rfl]
        constructor
        · intro _ t he
          cases he
        · intro _
          rfl
  · unfold db_view
    rw [if_neg h]
    refine ⟨by simp [h], fun he => absurd he h, fun he => absurd he h⟩

/-- C7 witness: non-empty arguments yield the argument diagnostic, and a
non-trait input with empty arguments yields the parse diagnostic. -/
theorem C7_diagnostics_witness :
    db_view hygiene0 ["no_args_allowed"] (.traitItem sampleTrait)
        = .diag .argumentError ∧
    db_view hygiene0 [] (.other "struct S;") = .diag .parseError :=
  ⟨(C7_diagnostics hygiene0 ["no_args_allowed"] (.traitItem sampleTrait)).1.mpr
      (by simp),
   ((C7_diagnostics hygiene0 [] (.other "struct S;")).2.1 rfl).mpr
      (fun t he => by cases he)⟩

/-- C8 (counterexample): the claim that of the input declaration only the
requirements list and the name are read is refuted: the generated hidden
interface also depends on the input's visibility.  Two inputs agreeing on
name, requirements and body but differing in visibility yield different
hidden interfaces. -/
theorem C8_visibility_is_read :
    sampleTrait.ident = sampleTraitPriv.ident ∧
    sampleTrait.supertraits = sampleTraitPriv.supertraits ∧
    sampleTrait.items = sampleTraitPriv.items ∧
    (DbViewMacro.new hygiene0 sampleTrait).view_trait
      ≠ (DbViewMacro.new hygiene0 sampleTraitPriv).view_trait := by
  refine ⟨rfl, rfl, rfl, by decide⟩

/-- C8 (amended): the expansion never inspects or rewrites the input
declaration's body; of the input declaration it reads only the requirements
list, the name and the visibility.  Every part of the input other than the
requirements list (body, name, visibility, generics, attributes) appears
unchanged in the augmented output declaration, and the two generated
declarations depend only on the name and the visibility (and the hygiene
context). -/
theorem C8_frame (hy : Hygiene) (t t' : ItemTrait)
    (hident : t.ident = t'.ident) (hvis : t.vis = t'.vis) :
    ((DbViewMacro.new hy t).add_supertrait).input
        = { t with supertraits :=
              t.supertraits ++ [DbViewMacro.db_view_trait_name t.ident] } ∧
    (DbViewMacro.new hy t).view_trait = (DbViewMacro.new hy t').view_trait ∧
    (DbViewMacro.new hy t).view_impl = (DbViewMacro.new hy t').view_impl := by
  refine ⟨rfl, ?_, ?_⟩ <;>
    simp [DbViewMacro.new, DbViewMacro.view_trait, DbViewMacro.view_impl, hident, hvis]

/-- C8 witness: two inputs sharing name and visibility but with different
attributes, generics and bodies generate equal artifacts. -/
theorem C8_frame_witness :
    ((DbViewMacro.new hygiene0 sampleTrait).add_supertrait).input
        = { sampleTrait with supertraits :=
              sampleTrait.supertraits
                ++ [DbViewMacro.db_view_trait_name sampleTrait.ident] } ∧
    (DbViewMacro.new hygiene0 sampleTrait).view_trait
        = (DbViewMacro.new hygiene0 sampleTraitAltBody).view_trait ∧
    (DbViewMacro.new hygiene0 sampleTrait).view_impl
        = (DbViewMacro.new hygiene0 sampleTraitAltBody).view_impl :=
  C8_frame hygiene0 sampleTrait sampleTraitAltBody rfl rfl

/-- C9: the expansion is deterministic: two runs on equal hygiene contexts,
equal argument tokens and equal inputs yield equal outputs, and the two
name-derivation functions yield equal identifiers on equal names. -/
theorem C9_deterministic (hy hy' : Hygiene) (args args' : List String)
    (input input' : MacroInput) (N M : String)
    (h1 : hy = hy') (h2 : args = args') (h3 : input = input') (h4 : N = M) :
    db_view hy args input = db_view hy' args' input' ∧
    DbViewMacro.db_view_trait_name N = DbViewMacro.db_view_trait_name M ∧
    DbViewMacro.db_view_method_name N = DbViewMacro.db_view_method_name M := by
  subst h1; subst h2; subst h3; subst h4
  exact ⟨rfl, rfl, rfl⟩

/-- C9 witness at concrete equal inputs. -/
theorem C9_deterministic_witness :
    db_view hygiene0 [] (.traitItem sampleTrait)
        = db_view hygiene0 [] (.traitItem sampleTrait) ∧
    DbViewMacro.db_view_trait_name "UserTrait"
        = DbViewMacro.db_view_trait_name "UserTrait" ∧
    DbViewMacro.db_view_method_name "UserTrait"
        = DbViewMacro.db_view_method_name "UserTrait" :=
  C9_deterministic hygiene0 hygiene0 [] [] (.traitItem sampleTrait)
    (.traitItem sampleTrait) "UserTrait" "UserTrait" rfl rfl rfl rfl

/-- C10: argument validation happens before input parsing: with non-empty
argument tokens the output is the argument diagnostic regardless of the
input, and in particular it does not depend on the input at all. -/
theorem C10_args_checked_first (hy : Hygiene) (args : List String)
    (input : MacroInput) (h : args ≠ []) :
    db_view hy args input = .diag .argumentError ∧
    ∀ input', db_view hy args input = db_view hy args input' := by
  unfold db_view
  rw [if_neg h]
  exact ⟨rfl, fun input' => by rw [if_neg h]⟩

/-- C10 witness: non-empty arguments with an unparseable input yield the
argument diagnostic. -/
theorem C10_args_checked_first_witness :
    db_view hygiene0 ["x"] (.other "enum E {}") = .diag .argumentError :=
  (C10_args_checked_first hygiene0 ["x"] (.other "enum E {}") (by simp)).1

end Salsa
